import Mathlib

set_option maxRecDepth 8000

/-!
Verification of the PlantAir repository: a shallow embedding of its two
source artefacts — the Arduino NPK/pH/moisture acquisition sketch and the
dataset-synthesis / KNN-training notebooks — together with theorems
settling the specification's claims about them.
-/

namespace PlantAir

/-! Embedding of the Arduino sketch (soil sensor acquisition).

`nitro`, `phos`, `pota` are the three hard-coded request frames; `values`
is the shared global byte buffer `byte values[11]` (zero-initialised, as C
globals are).  The half-duplex bus is abstracted as an oracle `Bus` giving
the number of bytes the transmitter accepts for a frame write and the
result of each successive `mod.read()` call (`-1` when no byte is
available, exactly as `SoftwareSerial.read` reports).  Each query function
is modelled as a state transformer on the buffer that also emits the
ordered trace of pin/delay/write/read events it performs. -/

def DE : Nat := 7

def RE : Nat := 8

def nitro : List Nat := [0x01, 0x03, 0x00, 0x1e, 0x00, 0x01, 0xe4, 0x0c]

def phos : List Nat := [0x01, 0x03, 0x00, 0x1f, 0x00, 0x01, 0xb5, 0xcc]

def pota : List Nat := [0x01, 0x03, 0x00, 0x20, 0x00, 0x01, 0x85, 0xc0]

/-- The global `byte values[11]`: zero-initialised, shared by all three
query functions. -/
def initialValues : List Nat := List.replicate 11 0

/-- One observable action of a query function, in program order. -/
inductive Event where
  | setPin (pin : Nat) (high : Bool)
  | delayMs (ms : Nat)
  | writeFrame (frame : List Nat)
  | read
deriving DecidableEq

/-- Environment oracle for the half-duplex bus: how many bytes a write of
a given frame transmits, and what the i-th `mod.read()` of a query
returns (`-1` = no data available). -/
structure Bus where
  writeResult : List Nat → Nat
  readByte : Nat → Int

/-- The C cast of an `int` read result to `byte` (uint8_t): reduction
mod 256, so the no-data sentinel `-1` becomes `0xFF`. -/
def toByte (x : Int) : Nat := (x % 256).toNat

/-- The read loop `for (byte i = 0; i < 7; i++) values[i] = mod.read();`. -/
def readLoop (bus : Bus) (values : List Nat) : List Nat :=
  (List.range 7).foldl (fun vs i => vs.set i (toByte (bus.readByte i))) values

/-- Common body of `nitrogen()` / `phosphorous()` / `potassium()`:
raise DE and RE, wait 10 ms, write the frame; only when the write reports
all 8 bytes sent, lower DE and RE and run the 7-byte read loop; in every
case return `values[4]`.  Result: (returned byte, new buffer, event
trace). -/
def queryStep (bus : Bus) (frame : List Nat) (values : List Nat) :
    Nat × List Nat × List Event :=
  let pre : List Event :=
    [Event.setPin DE true, Event.setPin RE true, Event.delayMs 10,
     Event.writeFrame frame]
  if bus.writeResult frame = 8 then
    let values' := readLoop bus values
    (values'.getD 4 0, values',
      pre ++ [Event.setPin DE false, Event.setPin RE false] ++
        (List.range 7).map (fun _ => Event.read))
  else
    (values.getD 4 0, values, pre)

def nitrogen (bus : Bus) (values : List Nat) : Nat × List Nat × List Event :=
  queryStep bus nitro values

def phosphorous (bus : Bus) (values : List Nat) : Nat × List Nat × List Event :=
  queryStep bus phos values

def potassium (bus : Bus) (values : List Nat) : Nat × List Nat × List Event :=
  queryStep bus pota values

/-- Scans a trace in order and reports whether a read is encountered
before any frame write. -/
def readBeforeWrite : List Event → Bool
  | [] => false
  | Event.read :: _ => true
  | Event.writeFrame _ :: _ => false
  | _ :: rest => readBeforeWrite rest

/-! Modbus-RTU CRC-16 (polynomial 0xA001, init 0xFFFF), used to check that
the hard-coded frames are well-formed read-holding-register requests. -/

def crcStepBit (c : Nat) : Nat :=
  if c % 2 = 1 then (c / 2) ^^^ 0xA001 else c / 2

def crcStepByte (c b : Nat) : Nat := Nat.iterate crcStepBit 8 (c ^^^ b)

def crc16 (l : List Nat) : Nat := l.foldl crcStepByte 0xFFFF

/-- The shape the spec ascribes to a request frame: device 0x01, function
0x03 (read holding registers), big-endian register address, register
count 1, CRC low byte then high byte. -/
def requestFrame (regAddr : Nat) : List Nat :=
  let body := [0x01, 0x03, regAddr / 256, regAddr % 256, 0x00, 0x01]
  body ++ [crc16 body % 256, crc16 body / 256]

/-! Concrete bus environments used for witnesses and counterexamples. -/

/-- A bus whose transmitter accepts no bytes: every write fails. -/
def busFailAll : Bus := ⟨fun _ => 0, fun _ => -1⟩

/-- A bus on which writes succeed and the response byte at read index 4
is 42. -/
def busOk42 : Bus := ⟨fun _ => 8, fun i => if i = 4 then 42 else 7⟩

/-- A bus on which writes succeed but no response byte ever arrives:
every `mod.read()` returns the no-data sentinel `-1`. -/
def busOkEmpty : Bus := ⟨fun _ => 8, fun _ => -1⟩

/-! Helper lemmas about the query body. -/

lemma queryStep_fail (bus : Bus) (frame v : List Nat)
    (h : bus.writeResult frame ≠ 8) :
    queryStep bus frame v =
      (v.getD 4 0, v,
        [Event.setPin DE true, Event.setPin RE true, Event.delayMs 10,
         Event.writeFrame frame]) := by
  simp [queryStep, h]

lemma queryStep_ok (bus : Bus) (frame v : List Nat)
    (h : bus.writeResult frame = 8) :
    (queryStep bus frame v).1 = (readLoop bus v).getD 4 0 ∧
      (queryStep bus frame v).2.1 = readLoop bus v := by
  simp [queryStep, h]

lemma readLoop_getD4 (bus : Bus) (v : List Nat) (h : 7 ≤ v.length) :
    (readLoop bus v).getD 4 0 = toByte (bus.readByte 4) := by
  simp only [readLoop, List.range_succ, List.range_zero, List.foldl_append,
    List.foldl_cons, List.foldl_nil, List.nil_append, List.getD]
  rw [List.get?_set_ne _ _ (by omega), List.get?_set_ne _ _ (by omega),
    List.get?_set_eq_of_lt _ (by simp; omega)]
  simp

lemma queryStep_result_getD (bus : Bus) (frame v : List Nat) :
    (queryStep bus frame v).1 = ((queryStep bus frame v).2.1).getD 4 0 := by
  by_cases h : bus.writeResult frame = 8 <;> simp [queryStep, h]

/-- C2: For every nutrient query, the response-read phase (lowering the
direction lines and reading the 7 response bytes) is entered only if the
8-byte request write was confirmed fully sent: the event trace never
contains a read before the frame write, a read occurs only when the write
reported 8 bytes, and the direction lines are lowered only in that case. -/
theorem query_never_reads_before_confirmed_write (bus : Bus)
    (frame v : List Nat) :
    readBeforeWrite (queryStep bus frame v).2.2 = false ∧
      (bus.writeResult frame ≠ 8 →
        Event.read ∉ (queryStep bus frame v).2.2) ∧
      (Event.read ∈ (queryStep bus frame v).2.2 →
        bus.writeResult frame = 8) ∧
      (Event.setPin DE false ∈ (queryStep bus frame v).2.2 →
        bus.writeResult frame = 8) := by
  by_cases h : bus.writeResult frame = 8 <;>
    simp [queryStep, h, readBeforeWrite, DE, RE]

/-- Witness for the C2 theorem at concrete buses: on a failing bus the
nitrogen query's trace has no read, and on a succeeding bus a read occurs
with the write confirmed. -/
theorem query_never_reads_before_confirmed_write_witness :
    Event.read ∉ (queryStep busFailAll nitro initialValues).2.2 ∧
      busOk42.writeResult nitro = 8 :=
  ⟨(query_never_reads_before_confirmed_write busFailAll nitro
      initialValues).2.1 (by decide),
   (query_never_reads_before_confirmed_write busOk42 nitro
      initialValues).2.2.1 (by decide)⟩

/-- C1 counterexample: the request write of a phosphorus query fails
(0 of 8 bytes transmitted), yet the query returns 42 — exactly the stale
scalar the preceding successful nitrogen query stored in the shared
buffer — and no failure signal exists. -/
theorem write_fail_stale_scalar_counterexample :
    (nitrogen busOk42 initialValues).1 = 42 ∧
      busFailAll.writeResult phos ≠ 8 ∧
      (phosphorous busFailAll (nitrogen busOk42 initialValues).2.1).1 = 42 := by
  refine ⟨by decide, by decide, by decide⟩

/-- C1 amended: when the request write does not transmit all 8 bytes, no
read is attempted, but the query performs no failure signalling: it
returns the prior contents of the shared buffer at offset 4 (a stale
scalar; 0 only when nothing was ever stored) and leaves the buffer
untouched. -/
theorem write_fail_no_read_returns_prior_buffer (bus : Bus) (v : List Nat) :
    (bus.writeResult nitro ≠ 8 →
      (nitrogen bus v).1 = v.getD 4 0 ∧ (nitrogen bus v).2.1 = v ∧
        Event.read ∉ (nitrogen bus v).2.2) ∧
    (bus.writeResult phos ≠ 8 →
      (phosphorous bus v).1 = v.getD 4 0 ∧ (phosphorous bus v).2.1 = v ∧
        Event.read ∉ (phosphorous bus v).2.2) ∧
    (bus.writeResult pota ≠ 8 →
      (potassium bus v).1 = v.getD 4 0 ∧ (potassium bus v).2.1 = v ∧
        Event.read ∉ (potassium bus v).2.2) := by
  refine ⟨fun h => ?_, fun h => ?_, fun h => ?_⟩ <;>
    simp [nitrogen, phosphorous, potassium, queryStep_fail _ _ _ h]

/-- Witness for the amended C1 theorem on a concretely failing bus. -/
theorem write_fail_no_read_returns_prior_buffer_witness :
    busFailAll.writeResult nitro ≠ 8 ∧
      ((nitrogen busFailAll initialValues).1 = initialValues.getD 4 0 ∧
        (nitrogen busFailAll initialValues).2.1 = initialValues ∧
        Event.read ∉ (nitrogen busFailAll initialValues).2.2) :=
  ⟨by decide,
   (write_fail_no_read_returns_prior_buffer busFailAll initialValues).1
     (by decide)⟩

/-- C3 counterexample: the write succeeds but zero response bytes are
available (every read returns the -1 no-data sentinel); the nitrogen query
nevertheless returns the fabricated reading 255 (the byte cast of -1)
instead of any "no reading" signal. -/
theorem short_read_fabricated_value_counterexample :
    busOkEmpty.writeResult nitro = 8 ∧
      busOkEmpty.readByte 4 = -1 ∧
      (nitrogen busOkEmpty initialValues).1 = 255 := by
  refine ⟨by decide, by decide, by decide⟩

/-- C3 amended: for every nutrient query, after a confirmed write the 7
read iterations run unconditionally; the returned scalar is the byte cast
of whatever the 4th read yields, so when no byte is available the caller
receives the sentinel value 0xFF = 255, not an explicit "no reading"
signal. -/
theorem short_read_yields_sentinel_byte (bus : Bus) (v : List Nat)
    (hlen : 7 ≤ v.length) :
    (bus.writeResult nitro = 8 →
      (nitrogen bus v).1 = toByte (bus.readByte 4) ∧
        (bus.readByte 4 = -1 → (nitrogen bus v).1 = 255)) ∧
      (bus.writeResult phos = 8 →
        (phosphorous bus v).1 = toByte (bus.readByte 4) ∧
          (bus.readByte 4 = -1 → (phosphorous bus v).1 = 255)) ∧
      (bus.writeResult pota = 8 →
        (potassium bus v).1 = toByte (bus.readByte 4) ∧
          (bus.readByte 4 = -1 → (potassium bus v).1 = 255)) := by
  have h2 := readLoop_getD4 bus v hlen
  refine ⟨fun hw => ?_, fun hw => ?_, fun hw => ?_⟩
  · have h1 := (queryStep_ok bus nitro v hw).1
    refine ⟨by rw [nitrogen, h1, h2], fun hneg => ?_⟩
    rw [nitrogen, h1, h2, hneg]
    decide
  · have h1 := (queryStep_ok bus phos v hw).1
    refine ⟨by rw [phosphorous, h1, h2], fun hneg => ?_⟩
    rw [phosphorous, h1, h2, hneg]
    decide
  · have h1 := (queryStep_ok bus pota v hw).1
    refine ⟨by rw [potassium, h1, h2], fun hneg => ?_⟩
    rw [potassium, h1, h2, hneg]
    decide

/-- Witness for the amended C3 theorem on the concretely empty bus: all
three queries return the fabricated 255. -/
theorem short_read_yields_sentinel_byte_witness :
    (nitrogen busOkEmpty initialValues).1 = 255 ∧
      (phosphorous busOkEmpty initialValues).1 = 255 ∧
      (potassium busOkEmpty initialValues).1 = 255 :=
  ⟨((short_read_yields_sentinel_byte busOkEmpty initialValues
      (by decide)).1 (by decide)).2 (by decide),
   ((short_read_yields_sentinel_byte busOkEmpty initialValues
      (by decide)).2.1 (by decide)).2 (by decide),
   ((short_read_yields_sentinel_byte busOkEmpty initialValues
      (by decide)).2.2 (by decide)).2 (by decide)⟩

/-- C4: the three hard-coded request frames are exactly the 8-byte Modbus
read-holding-register requests for register addresses 0x001E, 0x001F,
0x0020 (device 0x01, function 0x03, register count 1, CRC-16 low byte
first), and each query's returned scalar is the byte at offset 4 of the
7-byte response read. -/
theorem request_frames_and_offset4_extraction :
    nitro = requestFrame 0x1e ∧ phos = requestFrame 0x1f ∧
      pota = requestFrame 0x20 ∧
      (∀ bus v, 7 ≤ List.length v → bus.writeResult nitro = 8 →
        (nitrogen bus v).1 = toByte (bus.readByte 4)) ∧
      (∀ bus v, 7 ≤ List.length v → bus.writeResult phos = 8 →
        (phosphorous bus v).1 = toByte (bus.readByte 4)) ∧
      (∀ bus v, 7 ≤ List.length v → bus.writeResult pota = 8 →
        (potassium bus v).1 = toByte (bus.readByte 4)) := by
  refine ⟨by decide, by decide, by decide, ?_, ?_, ?_⟩ <;>
    intro bus v hlen hw <;>
    · first
      | rw [nitrogen, (queryStep_ok bus nitro v hw).1, readLoop_getD4 bus v hlen]
      | rw [phosphorous, (queryStep_ok bus phos v hw).1, readLoop_getD4 bus v hlen]
      | rw [potassium, (queryStep_ok bus pota v hw).1, readLoop_getD4 bus v hlen]

/-- Witness for the C4 theorem: the nitrogen query on a concrete bus with
response byte 42 at offset 4 returns 42. -/
theorem request_frames_and_offset4_extraction_witness :
    (nitrogen busOk42 initialValues).1 = toByte (busOk42.readByte 4) :=
  request_frames_and_offset4_extraction.2.2.2.1 busOk42 initialValues
    (by decide) (by decide)

/-- C10: all three query functions return offset 4 of the one shared
zero-initialised buffer; the buffer is overwritten only on a successful
write; a query whose write fails returns whatever the most recent
successful query (of any nutrient) stored there — concretely, a failed
potassium query after a successful nitrogen query returns the nitrogen
reading 42 — and 0 when no query ever succeeded. -/
theorem shared_buffer_cross_nutrient_leakage :
    initialValues.getD 4 0 = 0 ∧
      (∀ bus v, (nitrogen bus v).1 = ((nitrogen bus v).2.1).getD 4 0) ∧
      (∀ bus v, (phosphorous bus v).1 = ((phosphorous bus v).2.1).getD 4 0) ∧
      (∀ bus v, (potassium bus v).1 = ((potassium bus v).2.1).getD 4 0) ∧
      (∀ bus v, bus.writeResult nitro ≠ 8 → (nitrogen bus v).2.1 = v) ∧
      (∀ bus v, bus.writeResult phos ≠ 8 → (phosphorous bus v).2.1 = v) ∧
      (∀ bus v, bus.writeResult pota ≠ 8 → (potassium bus v).2.1 = v) ∧
      (∀ bus v, bus.writeResult nitro = 8 →
        (nitrogen bus v).2.1 = readLoop bus v) ∧
      (∀ bus, bus.writeResult pota ≠ 8 →
        (potassium bus initialValues).1 = 0) ∧
      (potassium busFailAll (nitrogen busOk42 initialValues).2.1).1 = 42 := by
  refine ⟨by decide,
    fun bus v => queryStep_result_getD bus nitro v,
    fun bus v => queryStep_result_getD bus phos v,
    fun bus v => queryStep_result_getD bus pota v,
    fun bus v h => by simp [potassium, nitrogen, phosphorous, queryStep_fail _ _ _ h],
    fun bus v h => by simp [potassium, nitrogen, phosphorous, queryStep_fail _ _ _ h],
    fun bus v h => by simp [potassium, nitrogen, phosphorous, queryStep_fail _ _ _ h],
    fun bus v h => (queryStep_ok bus nitro v h).2,
    fun bus h => by simp [potassium, queryStep_fail _ _ _ h]; decide,
    by decide⟩

/-- Witness for the C10 theorem: its write-failure conjuncts discharged on
the concrete everywhere-failing bus. -/
theorem shared_buffer_cross_nutrient_leakage_witness :
    (nitrogen busFailAll initialValues).2.1 = initialValues ∧
      (potassium busFailAll initialValues).1 = 0 :=
  ⟨shared_buffer_cross_nutrient_leakage.2.2.2.2.1 busFailAll initialValues
      (by decide),
   shared_buffer_cross_nutrient_leakage.2.2.2.2.2.2.2.2.1 busFailAll
      (by decide)⟩

/-! Embedding of the analog probe conversions in `loop()`:
`voltage1 = sensorValue1 * (5.0 / 1023.0); pHValue = voltage1 * (14.0 / 5.0);`
and `moisturePercent = map(sensorValue2, 0, 1023, 0, 100);`.
The float arithmetic is modelled exactly over ℚ; Arduino's integer `map`
uses C long division, i.e. truncation toward zero (`Int.tdiv`). -/

def pHValue (sensorValue1 : ℕ) : ℚ :=
  ((sensorValue1 : ℚ) * (5 / 1023)) * (14 / 5)

/-- Arduino `map(x, in_min, in_max, out_min, out_max)`. -/
def arduinoMap (x inMin inMax outMin outMax : ℤ) : ℤ :=
  Int.tdiv ((x - inMin) * (outMax - outMin)) (inMax - inMin) + outMin

def moisturePercent (sensorValue2 : ℕ) : ℤ :=
  arduinoMap sensorValue2 0 1023 0 100

/-- C8: for every raw ADC sample in [0, 1023] the pH conversion equals
rawSample × (5/1023) × (14/5) and lies in [0, 14], and the moisture
conversion is the integer linear rescale of the raw sample from [0,1023]
to [0,100] and lies in [0, 100]. -/
theorem analog_conversions_in_range (raw1 raw2 : ℕ) (h1 : raw1 ≤ 1023)
    (h2 : raw2 ≤ 1023) :
    pHValue raw1 = (raw1 : ℚ) * (5 / 1023) * (14 / 5) ∧
      0 ≤ pHValue raw1 ∧ pHValue raw1 ≤ 14 ∧
      moisturePercent raw2 = (raw2 * 100 : ℤ) / 1023 ∧
      0 ≤ moisturePercent raw2 ∧ moisturePercent raw2 ≤ 100 := by
  have hc1 : (raw1 : ℚ) ≤ 1023 := by exact_mod_cast h1
  have hmap : moisturePercent raw2 = (raw2 * 100 : ℤ) / 1023 := by
    unfold moisturePercent arduinoMap
    rw [Int.tdiv_eq_ediv (by simp) (by norm_num)]
    ring_nf
  refine ⟨rfl, by unfold pHValue; positivity, ?_, hmap, ?_, ?_⟩
  · unfold pHValue; nlinarith
  · rw [hmap]; positivity
  · rw [hmap]
    calc (raw2 * 100 : ℤ) / 1023 ≤ (1023 * 100 : ℤ) / 1023 := by
          apply Int.ediv_le_ediv (by norm_num)
          have : (raw2 : ℤ) ≤ 1023 := by exact_mod_cast h2
          nlinarith
      _ = 100 := by decide

/-- Witness for the C8 theorem at the concrete samples 512 and 1023. -/
theorem analog_conversions_in_range_witness :
    pHValue 512 = (512 : ℚ) * (5 / 1023) * (14 / 5) ∧
      0 ≤ pHValue 512 ∧ pHValue 512 ≤ 14 ∧
      moisturePercent 1023 = (1023 * 100 : ℤ) / 1023 ∧
      0 ≤ moisturePercent 1023 ∧ moisturePercent 1023 ≤ 100 :=
  analog_conversions_in_range 512 1023 (by decide) (by decide)

/-! Embedding of the dataset-synthesis notebook's `generate_feature`:
`np.clip(np.random.normal(mean, std, size), min_val, max_val).round(2)`.
The Gaussian draw is abstracted as the list of drawn samples (the claims
quantify over all draws); `np.clip` is elementwise min/max clamping and
`.round(2)` is NumPy's round-half-to-even at two decimals, modelled
exactly over ℚ. -/

/-- Elementwise body of `np.clip(a, lo, hi)`. -/
def npClip (x lo hi : ℚ) : ℚ := min (max x lo) hi

/-- NumPy rounding to the nearest integer, halves to the even neighbour. -/
def roundHalfEven (x : ℚ) : ℤ :=
  if x - ⌊x⌋ = 1 / 2 then (if 2 ∣ ⌊x⌋ then ⌊x⌋ else ⌊x⌋ + 1) else round x

/-- NumPy `.round(2)`: round-half-even at two decimal places. -/
def npRound2 (x : ℚ) : ℚ := (roundHalfEven (100 * x) : ℚ) / 100

/-- `generate_feature(mean, std, size, feature_name)` with the normal
draw abstracted as `samples` and `ranges[feature_name]` passed as
`(lo, hi)`: clip every sample to the range, then round to 2 decimals. -/
def generate_feature (samples : List ℚ) (lo hi : ℚ) : List ℚ :=
  samples.map (fun s => npRound2 (npClip s lo hi))

/-- The notebook's `ranges` table of declared physical feature ranges. -/
def ranges : List (String × ℚ × ℚ) :=
  [("AQI", 0, 500), ("CO2_Level_ppm", 350, 500), ("NO2_Level_ppm", 0, 50),
   ("PM2_5_ug_m3", 0, 200), ("PM10_ug_m3", 0, 300), ("pH_Level", 4, 9),
   ("Nitrogen_mg_kg", 0, 200), ("Phosphorus_mg_kg", 0, 100),
   ("Potassium_mg_kg", 0, 100), ("Moisture_Level_%", 0, 100),
   ("Organic_Matter_%", 0, 10), ("Plot_Area_m2", 10, 1000)]

lemma le_roundHalfEven {L : ℤ} {y : ℚ} (h : (L : ℚ) ≤ y) :
    L ≤ roundHalfEven y := by
  unfold roundHalfEven
  have hfl : L ≤ ⌊y⌋ := Int.le_floor.mpr h
  split
  · split <;> omega
  · rw [round_eq]
    exact Int.le_floor.mpr (by linarith)

lemma roundHalfEven_le {H : ℤ} {y : ℚ} (h : y ≤ (H : ℚ)) :
    roundHalfEven y ≤ H := by
  unfold roundHalfEven
  split
  · rename_i hf
    have hyv : y = (⌊y⌋ : ℚ) + 1 / 2 := by linarith [hf]
    have : (⌊y⌋ : ℚ) < (H : ℚ) := by linarith
    have hlt : ⌊y⌋ < H := by exact_mod_cast this
    split <;> omega
  · rw [round_eq]
    calc ⌊y + 1 / 2⌋ ≤ ⌊(H : ℚ) + 1 / 2⌋ := Int.floor_le_floor (by linarith)
      _ = H + ⌊(1 : ℚ) / 2⌋ := by rw [Int.floor_int_add]
      _ = H := by norm_num

/-- Clamp-then-round keeps a value inside any range whose endpoints are
expressible at two decimals, and the result is an integer multiple of
1/100. -/
lemma npRound2_clip_mem {lo hi : ℚ} (hlo : (100 * lo).den = 1)
    (hhi : (100 * hi).den = 1) (hle : lo ≤ hi) (s : ℚ) :
    lo ≤ npRound2 (npClip s lo hi) ∧ npRound2 (npClip s lo hi) ≤ hi ∧
      ∃ n : ℤ, npRound2 (npClip s lo hi) = (n : ℚ) / 100 := by
  set c := npClip s lo hi with hc
  have hclo : lo ≤ c := le_min (le_max_right _ _) hle
  have hchi : c ≤ hi := min_le_right _ _
  have hlo' : ((100 * lo).num : ℚ) = 100 * lo := by
    rw [← Rat.den_eq_one_iff]; exact hlo
  have hhi' : ((100 * hi).num : ℚ) = 100 * hi := by
    rw [← Rat.den_eq_one_iff]; exact hhi
  have h1 : ((100 * lo).num : ℚ) ≤ 100 * c := by rw [hlo']; linarith
  have h2 : (100 : ℚ) * c ≤ ((100 * hi).num : ℚ) := by rw [hhi']; linarith
  have hrl' : ((100 * lo).num : ℚ) ≤ (roundHalfEven (100 * c) : ℚ) := by
    exact_mod_cast le_roundHalfEven h1
  have hrh' : ((roundHalfEven (100 * c)) : ℚ) ≤ ((100 * hi).num : ℚ) := by
    exact_mod_cast roundHalfEven_le h2
  refine ⟨?_, ?_, ⟨roundHalfEven (100 * c), rfl⟩⟩
  · unfold npRound2
    rw [hlo'] at hrl'
    linarith
  · unfold npRound2
    rw [hhi'] at hrh'
    linarith

/-- C9: every value produced by `generate_feature` for a feature of the
`ranges` table lies within that feature's declared physical range (each
draw is clamped to the range) and is an exact two-decimal value, for
every species class parameterisation, every feature, and every draw. -/
theorem synthesizer_in_range_two_decimals (name : String) (lo hi : ℚ)
    (samples : List ℚ) (v : ℚ) (hmem : (name, lo, hi) ∈ ranges)
    (hv : v ∈ generate_feature samples lo hi) :
    lo ≤ v ∧ v ≤ hi ∧ ∃ n : ℤ, v = (n : ℚ) / 100 := by
  rcases List.mem_map.mp hv with ⟨s, _, rfl⟩
  fin_cases hmem <;>
    exact npRound2_clip_mem (by norm_num) (by norm_num) (by norm_num) s

/-- Witness for the C9 theorem: the draw 0 for the AQI feature. -/
theorem synthesizer_in_range_two_decimals_witness :
    (0 : ℚ) ≤ 0 ∧ (0 : ℚ) ≤ 500 ∧ ∃ n : ℤ, (0 : ℚ) = (n : ℚ) / 100 :=
  synthesizer_in_range_two_decimals "AQI" 0 500 [0] 0 (by norm_num [ranges])
    (by norm_num [generate_feature, npClip, npRound2, roundHalfEven])

/-! Embedding of the label encoding in the training notebook:
`le = LabelEncoder(); y_encoded = le.fit_transform(y)`.
sklearn's LabelEncoder sets `classes_ = np.unique(y)` — the *sorted*
distinct labels — and transforms a label to its position in that sorted
table.  Lexicographic comparison of strings is performed on the
underlying character lists (which is the string order:
`String.lt_iff_toList_lt`). -/

/-- Insertion into a sorted duplicate-free list, the building block of
the `np.unique` model. -/
def insertUnique (x : String) : List String → List String
  | [] => [x]
  | y :: ys =>
    if x.data < y.data then x :: y :: ys
    else if x = y then y :: ys
    else y :: insertUnique x ys

/-- `np.unique`: the sorted list of distinct values. -/
def uniqueSorted (l : List String) : List String := l.foldr insertUnique []

/-- `LabelEncoder.fit`: `classes_ = np.unique(y)`. -/
def labelEncoderClasses (ys : List String) : List String := uniqueSorted ys

/-- `LabelEncoder.transform` of one label: its ordinal position in
`classes_`. -/
def labelEncoderTransform (ys : List String) (y : String) : ℕ :=
  (labelEncoderClasses ys).findIdx (fun z => z == y)

/-- Modelled from the spec's words, for refinement comparison only: the
table the claim describes — distinct labels in first-occurrence order. -/
def firstSeenClasses : List String → List String
  | [] => []
  | y :: ys => y :: (firstSeenClasses ys).filter (fun z => decide (z ≠ y))

/-- The notebook's species list, in its generation order. -/
def plant_classes : List String :=
  ["Mango", "Neem", "Jamun", "Amla", "Drumstick"]

lemma mem_insertUnique (x a : String) (l : List String) :
    a ∈ insertUnique x l ↔ a = x ∨ a ∈ l := by
  induction l with
  | nil => simp [insertUnique]
  | cons y ys ih =>
    unfold insertUnique
    split
    · simp
    · split
      · rename_i h
        subst h
        simp only [List.mem_cons]
        tauto
      · simp only [List.mem_cons, ih]
        tauto

lemma sorted_insertUnique (x : String) (l : List String)
    (h : l.Sorted (· < ·)) : (insertUnique x l).Sorted (· < ·) := by
  induction l with
  | nil => simp [insertUnique]
  | cons y ys ih =>
    rw [List.sorted_cons] at h
    unfold insertUnique
    split
    · rename_i hlt'
      have hlt : x < y := String.lt_iff_toList_lt.mpr hlt'
      rw [List.sorted_cons]
      constructor
      · intro b hb
        rcases List.mem_cons.mp hb with rfl | hb
        · exact hlt
        · exact lt_trans hlt (h.1 b hb)
      · rw [List.sorted_cons]; exact h
    · split
      · rw [List.sorted_cons]; exact h
      · rename_i hlt' heq
        have hnlt : ¬ x < y := fun hc => hlt' (String.lt_iff_toList_lt.mp hc)
        rw [List.sorted_cons]
        refine ⟨fun b hb => ?_, ih h.2⟩
        rcases (mem_insertUnique x b ys).mp hb with rfl | hb
        · exact lt_of_le_of_ne (not_lt.mp hnlt) (Ne.symm heq)
        · exact h.1 b hb

lemma sorted_uniqueSorted (l : List String) :
    (uniqueSorted l).Sorted (· < ·) := by
  induction l with
  | nil => simp [uniqueSorted]
  | cons y ys ih => exact sorted_insertUnique y _ ih

lemma mem_uniqueSorted (a : String) (l : List String) :
    a ∈ uniqueSorted l ↔ a ∈ l := by
  induction l with
  | nil => simp [uniqueSorted]
  | cons y ys ih =>
    show a ∈ insertUnique y (uniqueSorted ys) ↔ _
    rw [mem_insertUnique, ih]
    simp

/-- In a strictly sorted list, the position of a member equals the number
of elements smaller than it. -/
lemma findIdx_sorted_eq_filter_length (l : List String) (y : String)
    (hs : l.Sorted (· < ·)) (hy : y ∈ l) :
    l.findIdx (fun z => z == y) =
      (l.filter (fun z => decide (z < y))).length := by
  induction l with
  | nil => simp at hy
  | cons a t ih =>
    rw [List.sorted_cons] at hs
    by_cases hay : a = y
    · subst hay
      rw [List.findIdx_cons]
      simp only [beq_self_eq_true, cond_true]
      rw [List.filter_cons]
      have h1 : (decide (a < a)) = false := by simp
      rw [h1]
      have hfilter : t.filter (fun z => decide (z < a)) = [] := by
        rw [List.filter_eq_nil_iff]
        intro b hb
        simp only [decide_eq_true_eq]
        exact not_lt.mpr (le_of_lt (hs.1 b hb))
      rw [hfilter]
      rfl
    · have hyt : y ∈ t := by
        rcases List.mem_cons.mp hy with rfl | h
        · exact absurd rfl hay
        · exact h
      have hlt : a < y := hs.1 y hyt
      rw [List.findIdx_cons]
      have hbeq : (a == y) = false := by
        simp only [beq_eq_false_iff_ne, ne_eq]
        exact hay
      rw [hbeq]
      rw [List.filter_cons]
      have h2 : (decide (a < y)) = true := decide_eq_true hlt
      rw [h2]
      simp [ih hs.2 hyt]

/-- C5 counterexample: on the corpus listing the five species in the
notebook's generation order, the LabelEncoder table (np.unique = sorted
distinct labels) assigns "Mango" the ordinal index 3, whereas its rank of
first appearance in that corpus is 0. -/
theorem label_codec_first_seen_counterexample :
    labelEncoderTransform plant_classes "Mango" = 3 ∧
      (firstSeenClasses plant_classes).findIdx (fun z => z == "Mango") = 0 ∧
      (3 : ℕ) ≠ 0 := by decide

/-- C5 amended: the LabelCodec table is built from the distinct species
labels of the corpus in lexicographically *sorted* order (np.unique), and
the ordinal index assigned to each species equals the number of distinct
corpus labels that sort strictly before it — not its rank of first
appearance. -/
theorem label_codec_sorted_rank (ys : List String) (y : String)
    (hy : y ∈ ys) :
    (∀ a, a ∈ labelEncoderClasses ys ↔ a ∈ ys) ∧
      (labelEncoderClasses ys).Sorted (· < ·) ∧
      labelEncoderTransform ys y =
        ((labelEncoderClasses ys).filter (fun z => decide (z < y))).length :=
  ⟨fun a => mem_uniqueSorted a ys, sorted_uniqueSorted ys,
   findIdx_sorted_eq_filter_length _ y (sorted_uniqueSorted ys)
     ((mem_uniqueSorted y ys).mpr hy)⟩

/-- Witness for the amended C5 theorem on the notebook's species list. -/
theorem label_codec_sorted_rank_witness :
    (∀ a, a ∈ labelEncoderClasses plant_classes ↔ a ∈ plant_classes) ∧
      (labelEncoderClasses plant_classes).Sorted (· < ·) ∧
      labelEncoderTransform plant_classes "Mango" =
        ((labelEncoderClasses plant_classes).filter
          (fun z => decide (z < "Mango"))).length :=
  label_codec_sorted_rank plant_classes "Mango" (by decide)

/-! Embedding of the hyperparameter search in the training notebook:
`param_grid = {'n_neighbors': [3, 5, 7, 9, 11], 'weights': ['uniform', 'distance']}`
`grid_search = GridSearchCV(knn, param_grid, cv=5, scoring='accuracy')`.
sklearn's ParameterGrid enumerates the Cartesian product with the
dict keys sorted (`n_neighbors` before `weights`) and the last key
varying fastest, and GridSearchCV's best index is the *first* candidate
attaining the maximal mean test score (argmin of the min-method rank
vector).  The 5-fold cross-validated mean accuracy of a candidate on the
training split is abstracted as an arbitrary score function; the claims
concern only the selection rule applied to those scores. -/

inductive Weights where
  | uniform
  | distance
deriving DecidableEq

def n_neighbors_grid : List ℕ := [3, 5, 7, 9, 11]

def weights_grid : List Weights := [Weights.uniform, Weights.distance]

/-- The candidate list in ParameterGrid order: neighbor counts outer,
weighting schemes inner (sorted keys, last key fastest). -/
def paramCandidates : List (ℕ × Weights) :=
  n_neighbors_grid.flatMap (fun k => weights_grid.map (fun w => (k, w)))

/-- GridSearchCV's selection: the first candidate, in grid order, whose
score is strictly greater than every earlier candidate's — i.e. the
first maximizer of the mean cross-validation score. -/
def bestParams (score : ℕ × Weights → ℚ) : ℕ × Weights :=
  paramCandidates.foldl (fun b c => if score b < score c then c else b)
    (3, Weights.uniform)

/-- The tie-break preference the claim describes: smaller neighbor count
first, and at equal neighbor count uniform before distance weighting.
`prefKey` is strictly monotone in that preference. -/
def prefKey (c : ℕ × Weights) : ℕ :=
  2 * c.1 + (if c.2 = Weights.uniform then 0 else 1)

/-- A left fold keeping the strictly-greater candidate splits its input
around its result: everything before the result scores strictly less,
everything after scores at most the result (first-argmax
characterisation). -/
lemma foldl_best_split {α : Type} (score : α → ℚ) :
    ∀ (l : List α) (b : α), ∃ l1 l2,
      b :: l = l1 ++ (l.foldl (fun x c => if score x < score c then c else x) b) :: l2 ∧
        (∀ c ∈ l1, score c < score (l.foldl (fun x c => if score x < score c then c else x) b)) ∧
        (∀ c ∈ l2, score c ≤ score (l.foldl (fun x c => if score x < score c then c else x) b)) := by
  intro l
  induction l with
  | nil =>
    intro b
    exact ⟨[], [], rfl, by simp, by simp⟩
  | cons c cs ih =>
    intro b
    set b' := if score b < score c then c else b with hb'
    have hfold : (c :: cs).foldl (fun x c => if score x < score c then c else x) b =
        cs.foldl (fun x c => if score x < score c then c else x) b' := by
      simp [List.foldl_cons, hb']
    rcases ih b' with ⟨l1', l2', hsplit, hl1', hl2'⟩
    set r := cs.foldl (fun x c => if score x < score c then c else x) b' with hr
    rw [hfold]
    by_cases hbc : score b < score c
    · have hb'c : b' = c := by rw [hb', if_pos hbc]
      have hbr : score b < score r := by
        rcases l1' with _ | ⟨x, l1''⟩
        · have : r = b' := by
            have := hsplit
            simp at this
            exact this.1.symm
          rw [this, hb'c]; exact hbc
        · have hx : x = b' := by
            have := hsplit
            simp at this
            exact this.1.symm
          have := hl1' x (List.mem_cons_self x l1'')
          rw [hx, hb'c] at this
          exact lt_trans hbc this
      refine ⟨b :: l1', l2', ?_, ?_, hl2'⟩
      · rw [List.cons_append]
        congr 1
        rw [← hsplit, hb'c]
      · intro d hd
        rcases List.mem_cons.mp hd with rfl | hd
        · exact hbr
        · exact hl1' d hd
    · have hb'b : b' = b := by rw [hb', if_neg hbc]
      rw [hb'b] at hsplit
      rcases l1' with _ | ⟨x, l1''⟩
      · have hrb : r = b := by
          have := hsplit
          simp at this
          exact this.1.symm
        have hl2'' : l2' = cs := by
          have := hsplit
          simp at this
          exact this.2.symm
        refine ⟨[], c :: cs, ?_, by simp, ?_⟩
        · simp [hrb]
        · intro d hd
          rcases List.mem_cons.mp hd with rfl | hd
          · rw [hrb]; exact not_lt.mp hbc
          · rw [← hl2''] at hd
            exact hl2' d hd
      · have hx : x = b := by
          have := hsplit
          simp at this
          exact this.1.symm
        have hcs : cs = l1'' ++ r :: l2' := by
          have := hsplit
          simp at this
          exact this.2
        have hbr : score b < score r := by
          have := hl1' x (List.mem_cons_self x l1'')
          rw [hx] at this
          exact this
        refine ⟨b :: c :: l1'', l2', ?_, ?_, hl2'⟩
        · simp [hcs]
        · intro d hd
          rcases List.mem_cons.mp hd with rfl | hd
          · exact hbr
          rcases List.mem_cons.mp hd with rfl | hd
          · exact lt_of_le_of_lt (not_lt.mp hbc) hbr
          · exact hl1' d (List.mem_cons_of_mem x hd)

/-- C6: for every assignment of mean cross-validation accuracies to the
candidates, the fitted grid search evaluates the whole Cartesian product
{3,5,7,9,11} × {uniform, distance}, and returns a candidate of that
product with the highest score; among candidates of equal highest score
it returns the one with the smaller neighbor count, preferring uniform
weighting at equal neighbor count. -/
theorem grid_search_selects_best (score : ℕ × Weights → ℚ) :
    (∀ k ∈ n_neighbors_grid, ∀ w ∈ weights_grid, (k, w) ∈ paramCandidates) ∧
      bestParams score ∈ paramCandidates ∧
      (∀ c ∈ paramCandidates, score c ≤ score (bestParams score)) ∧
      (∀ c ∈ paramCandidates, score c = score (bestParams score) →
        prefKey (bestParams score) ≤ prefKey c) := by
  rcases foldl_best_split score paramCandidates (3, Weights.uniform) with
    ⟨l1, l2, hsplit, hl1, hl2⟩
  have hpair : ((3, Weights.uniform) :: paramCandidates).Pairwise
      (fun a c => prefKey a ≤ prefKey c) := by decide
  have hbest_mem : bestParams score ∈ (3, Weights.uniform) :: paramCandidates := by
    rw [hsplit]
    exact List.mem_append_right l1 (List.mem_cons_self _ _)
  have hmem : bestParams score ∈ paramCandidates := by
    rcases List.mem_cons.mp hbest_mem with h | h
    · rw [h]; decide
    · exact h
  refine ⟨by decide, hmem, ?_, ?_⟩
  · intro c hc
    have hc' : c ∈ (3, Weights.uniform) :: paramCandidates :=
      List.mem_cons_of_mem _ hc
    rw [hsplit] at hc'
    rcases List.mem_append.mp hc' with h | h
    · exact le_of_lt (hl1 c h)
    · rcases List.mem_cons.mp h with rfl | h
      · exact le_refl _
      · exact hl2 c h
  · intro c hc hceq
    have hc' : c ∈ (3, Weights.uniform) :: paramCandidates :=
      List.mem_cons_of_mem _ hc
    rw [hsplit] at hc'
    rcases List.mem_append.mp hc' with h | h
    · exact absurd hceq (ne_of_lt (hl1 c h))
    · rcases List.mem_cons.mp h with rfl | h
      · exact le_refl _
      · have hpair' := hpair
        rw [hsplit] at hpair'
        have := (List.pairwise_append.mp hpair').2.1
        rw [List.pairwise_cons] at this
        exact this.1 c h

/-- An all-ties score assignment, for the witness. -/
def constScore : ℕ × Weights → ℚ := fun _ => 0

/-- Witness for the C6 theorem: under an all-ties score, the selected
candidate is weakly preferred (smaller k, uniform first) to the concrete
candidate (9, uniform). -/
theorem grid_search_selects_best_witness :
    (9, Weights.uniform) ∈ paramCandidates ∧
      constScore (9, Weights.uniform) ≤ constScore (bestParams constScore) ∧
      prefKey (bestParams constScore) ≤ prefKey (9, Weights.uniform) :=
  ⟨by decide,
   (grid_search_selects_best constScore).2.2.1 (9, Weights.uniform) (by decide),
   (grid_search_selects_best constScore).2.2.2 (9, Weights.uniform)
     (by decide) rfl⟩

/-! Embedding of the feature standardisation in the training notebook:
`scaler = StandardScaler(); X_scaled = scaler.fit_transform(X)`.
Per feature column, sklearn fits the arithmetic mean and the population
standard deviation, and `_handle_zeros_in_scale` silently replaces a zero
standard deviation by a unit scale — fitting never raises on a constant
column.  Transform subtracts the fitted mean and divides by the fitted
scale. -/

noncomputable def colMean (xs : List ℝ) : ℝ := xs.sum / xs.length

/-- Population variance of one feature column. -/
noncomputable def colVar (xs : List ℝ) : ℝ :=
  ((xs.map (fun x => (x - colMean xs) ^ 2)).sum) / xs.length

noncomputable def colStd (xs : List ℝ) : ℝ := Real.sqrt (colVar xs)

/-- The fitted scale: `_handle_zeros_in_scale` maps a zero standard
deviation to 1. -/
noncomputable def scaleOf (xs : List ℝ) : ℝ :=
  if colStd xs = 0 then 1 else colStd xs

/-- `StandardScaler.transform` of one value of the fitted column. -/
noncomputable def standardize (xs : List ℝ) (x : ℝ) : ℝ :=
  (x - colMean xs) / scaleOf xs

/-- C7 counterexample: fitting the constant (zero-standard-deviation)
feature column [5, 5] raises no error — fit is total — and silently
yields the unit scale, transforming the column's value to the finite
number 0 rather than reporting a DegenerateFeature failure. -/
theorem degenerate_feature_counterexample :
    colStd [5, 5] = 0 ∧ scaleOf [5, 5] = 1 ∧ standardize [5, 5] 5 = 0 := by
  have hmean : colMean [5, 5] = 5 := by norm_num [colMean]
  have hvar : colVar [5, 5] = 0 := by norm_num [colVar, hmean]
  have hstd : colStd [5, 5] = 0 := by rw [colStd, hvar, Real.sqrt_zero]
  refine ⟨hstd, ?_, ?_⟩
  · rw [scaleOf, if_pos hstd]
  · rw [standardize, scaleOf, if_pos hstd, hmean]
    norm_num

lemma list_sum_nonneg_all_zero (l : List ℝ) (h0 : ∀ y ∈ l, 0 ≤ y)
    (hs : l.sum = 0) : ∀ y ∈ l, y = 0 := by
  induction l with
  | nil => simp
  | cons a t ih =>
    rw [List.sum_cons] at hs
    have hta : 0 ≤ a := h0 a (List.mem_cons_self a t)
    have htt : 0 ≤ t.sum :=
      List.sum_nonneg (fun y hy => h0 y (List.mem_cons_of_mem a hy))
    have ha : a = 0 := by linarith
    have ht : t.sum = 0 := by linarith
    intro y hy
    rcases List.mem_cons.mp hy with rfl | hy
    · exact ha
    · exact ih (fun z hz => h0 z (List.mem_cons_of_mem a hz)) ht y hy

/-- C7 amended: when a feature's fitted standard deviation over the
(nonempty) training corpus is zero, fitting reports nothing: the scale is
silently set to 1 and every corpus value of that feature is transformed
to the finite value 0 — no infinite or NaN output, but also no
DegenerateFeature error. -/
theorem degenerate_feature_silent_unit_scale (xs : List ℝ) (x : ℝ)
    (hne : xs ≠ []) (hvar : colVar xs = 0) (hx : x ∈ xs) :
    scaleOf xs = 1 ∧ standardize xs x = 0 := by
  have hstd : colStd xs = 0 := by rw [colStd, hvar, Real.sqrt_zero]
  have hscale : scaleOf xs = 1 := by rw [scaleOf, if_pos hstd]
  have hlen : (xs.length : ℝ) ≠ 0 := by
    have h : xs.length ≠ 0 := fun h => hne (List.length_eq_zero.mp h)
    exact_mod_cast h
  have hsum : (xs.map (fun y => (y - colMean xs) ^ 2)).sum = 0 := by
    rw [colVar, div_eq_zero_iff] at hvar
    tauto
  have hsq : (x - colMean xs) ^ 2 = 0 := by
    refine list_sum_nonneg_all_zero _ ?_ hsum _ (List.mem_map.mpr ⟨x, hx, rfl⟩)
    rintro y hy
    rcases List.mem_map.mp hy with ⟨z, _, rfl⟩
    positivity
  have hxm : x = colMean xs := by
    have := pow_eq_zero_iff (n := 2) (by norm_num) |>.mp hsq
    linarith [sub_eq_zero.mp this]
  refine ⟨hscale, ?_⟩
  rw [standardize, hscale, hxm]
  norm_num

/-- Witness for the amended C7 theorem on the constant column [5, 5]. -/
theorem degenerate_feature_silent_unit_scale_witness :
    scaleOf [5, 5] = 1 ∧ standardize [5, 5] 5 = 0 :=
  degenerate_feature_silent_unit_scale [5, 5] 5 (by simp)
    (by norm_num [colVar, colMean]) (by simp)

end PlantAir
